import Mathlib

/-!
Verification development for the donder-release repository.

The repository ships two npm installer shim scripts (`npm/pre-install.js`,
`npm/uninstall.js`) and documentation.  The release engine itself (commit
parser, version-bump resolver, changelog renderer, publisher, orchestrator)
is described by the specification but its code is not present; those
components are modelled here from the specification's words, as marked on
each definition.

Strings are modelled as `List Char` (the character data of a JavaScript /
Rust string); all definitions are executable.
-/

/-! Generic list-of-characters helpers. -/

/-- Does `pat` occur at the start of `l`? -/
def startsWithL : List Char → List Char → Bool
  | [], _ => true
  | _ :: _, [] => false
  | a :: as, b :: bs => a == b && startsWithL as bs

/-- Does `pat` occur anywhere inside `l` (contiguously)? -/
def occursIn (pat : List Char) : List Char → Bool
  | [] => startsWithL pat []
  | c :: t => startsWithL pat (c :: t) || occursIn pat t

/-- Split `l` at the first occurrence of the separator `sep`, returning the
part before and the part after; `none` when `sep` does not occur. -/
def splitFirstL (sep : List Char) : List Char → Option (List Char × List Char)
  | [] => if startsWithL sep [] then some ([], []) else none
  | c :: t =>
    if startsWithL sep (c :: t) then some ([], (c :: t).drop sep.length)
    else
      match splitFirstL sep t with
      | some (a, b) => some (c :: a, b)
      | none => none

/-- Split a character list on a separator character (like `String.splitOn`
for a single-character separator): `splitOnChar c l` returns the chunks
between occurrences of `c`. -/
def splitOnChar (sep : Char) : List Char → List (List Char)
  | [] => [[]]
  | c :: t =>
    let rest := splitOnChar sep t
    if c = sep then [] :: rest
    else (c :: rest.headD []) :: rest.tail

/-- Rejoin chunks with a separator character: inverse-direction companion of
`splitOnChar`. -/
def joinWithChar (sep : Char) : List (List Char) → List Char
  | [] => []
  | [l] => l
  | l :: ls => l ++ sep :: joinWithChar sep ls

/-- Trim leading and trailing whitespace characters. -/
def trimL (l : List Char) : List Char :=
  ((l.dropWhile Char.isWhitespace).reverse.dropWhile Char.isWhitespace).reverse

/-- Association-list lookup with decidable key equality. -/
def lookupAssoc {α : Type} (k : List Char) : List (List Char × α) → Option α
  | [] => none
  | (k2, v) :: t => if k = k2 then some v else lookupAssoc k t

/-! Embedding of the npm installer shim scripts (`npm/pre-install.js`,
`npm/uninstall.js`)

Each script is a straight-line Node program that prints messages
(`console.log`) and spawns shell commands (`exec`).  We embed a script as
the ordered list of effects it issues.  The `exec` callbacks only print
the spawned command's output or error; they run asynchronously after the
script body and are not part of the issued-effect list. -/

/-- One observable effect of a shim script: a printed log line or a spawned
shell command. -/
inductive Effect : Type
  | log (msg : String)
  | exec (cmd : String)
deriving DecidableEq

/-- Environment a shim script runs in: `npm_config_version` (none when the
variable is unset), the `version` field of the sibling `package.json`, and
whether the `~/.cargo` directory exists. -/
structure ShimEnv : Type where
  npmConfigVersion : Option String
  packageJsonVersion : String
  cargoDirExists : Bool
deriving DecidableEq

/-- Line 29 of `pre-install.js`: `process.env.npm_config_version ?
process.env.npm_config_version : require("../package.json").version`.
A JavaScript string is truthy exactly when it is non-empty, so the
environment variable is used when set and non-empty. -/
def versionOf (e : ShimEnv) : String :=
  match e.npmConfigVersion with
  | some v => if v = "" then e.packageJsonVersion else v
  | none => e.packageJsonVersion

/-- The rustup bootstrap command of `pre-install.js` lines 18-19 (the
template splice `${setCargo}` expanded). -/
def curlCmd : String :=
  "curl --proto \x27=https\x27 --tlsv1.2 -sSf https://sh.rustup.rs | sh -s -- -y && PATH=\"/$HOME/.cargo/bin:$PATH\""

/-- The install command of `pre-install.js` line 34. -/
def installCmd (e : ShimEnv) : String :=
  "cargo install donder-release --vers " ++ versionOf e

/-- The log line of `pre-install.js` line 32. -/
def installLog (e : ShimEnv) : String :=
  "Installing and compiling donder-release " ++ versionOf e ++ "..."

/-- Effects issued by `pre-install.js`: when `~/.cargo` is missing it logs
and spawns the rustup bootstrap (lines 12-27); then, unconditionally, it
logs and spawns `cargo install donder-release --vers <version>`
(lines 32-43). -/
def preInstall (e : ShimEnv) : List Effect :=
  (if e.cargoDirExists then []
   else [Effect.log ("Installing deps [cargo]."), Effect.exec curlCmd])
  ++ [Effect.log (installLog e), Effect.exec (installCmd e)]

/-- Effects issued by `uninstall.js`: gated on
`fs.existsSync(~/.cargo/bin/donder-release)` (line 11), it either logs and
spawns `cargo uninstall donder-release` or only logs a skip message. -/
def uninstall (binExists : Bool) : List Effect :=
  if binExists then
    [Effect.log ("Uninstalling donder-release..."),
     Effect.exec ("cargo uninstall donder-release")]
  else [Effect.log ("donder-release not found skipping!")]

/-- The shell commands a list of effects spawns. -/
def execCmds (l : List Effect) : List String :=
  l.filterMap fun ef => match ef with | Effect.exec c => some c | Effect.log _ => none

/-- The log lines a list of effects prints. -/
def logLines (l : List Effect) : List String :=
  l.filterMap fun ef => match ef with | Effect.log m => some m | Effect.exec _ => none

/-- Modelled from the spec: the installer shim scripts "shell out to install
a pre-built binary", i.e. the install step "fetches a ready-made executable
rather than compiling the tool from source".  Rendered over the embedded
script: no spawned command invokes the source-compiling `cargo install`
tool, and no printed log line announces compiling. -/
def fetchesPrebuiltBinary (e : ShimEnv) : Prop :=
  ((execCmds (preInstall e)).all fun c => !(occursIn ("cargo install".data) c.data)) = true
  ∧ ((logLines (preInstall e)).all fun m => !(occursIn ("compiling".data) m.data)) = true

/-! Data model of the release engine.

Modelled from the spec, section 3 (DATA MODEL).  The engine's code is not
part of the provided material, so every definition from here on is built
from the specification's words. -/

/-- Modelled from the spec: the closed commit-type enum
`{feat,fix,perf,refactor,docs,chore,...,unknown}` of `ParsedCommit`. -/
inductive CommitType : Type
  | feat | fix | perf | refactor | docs | chore | style | build | ci | revert
  | unknown
deriving DecidableEq

/-- Modelled from the spec: `RawCommit`: `{hash: string, message: string,
authoredAt: timestamp}`. -/
structure RawCommit : Type where
  hash : List Char
  message : List Char
  authoredAt : Nat
deriving DecidableEq

/-- Modelled from the spec: `ParsedCommit`: `{type, scope, description,
body, footers, breaking, raw}`. -/
structure ParsedCommit : Type where
  type : CommitType
  scope : Option (List Char)
  description : List Char
  body : Option (List Char)
  footers : List (List Char × List Char)
  breaking : Bool
  raw : RawCommit
deriving DecidableEq

/-- Modelled from the spec: `VersionBump`: enum `{none, patch, minor,
major}`. -/
inductive VersionBump : Type
  | none | patch | minor | major
deriving DecidableEq

/-- Modelled from the spec: a semver triple. -/
structure Semver : Type where
  major : Nat
  minor : Nat
  patch : Nat
deriving DecidableEq

/-! Conventional Commit Parser.

Modelled from the spec, section 4.2: grammar `type(scope)!: description`
header line, optional blank line, optional body paragraphs, optional
trailing `key: value` or `key #value` footer lines; a `BREAKING CHANGE:`
footer forces `breaking=true` even without `!`; parsing is total and
degrades to `type=unknown` with the full raw message as description;
case-insensitive type matching; scope trimmed of surrounding whitespace
and parentheses. -/

/-- The canonical (lowercase) spelling of each recognized commit type. -/
def CommitType.canonical : CommitType → List Char
  | .feat => "feat".data
  | .fix => "fix".data
  | .perf => "perf".data
  | .refactor => "refactor".data
  | .docs => "docs".data
  | .chore => "chore".data
  | .style => "style".data
  | .build => "build".data
  | .ci => "ci".data
  | .revert => "revert".data
  | .unknown => "unknown".data

/-- Case-insensitive recognition of a type token: lowercase it and look it
up among the canonical spellings; unrecognized tokens yield `none`. -/
def typeOfToken (l : List Char) : Option CommitType :=
  lookupAssoc (l.map Char.toLower)
    [("feat".data, CommitType.feat), ("fix".data, CommitType.fix),
     ("perf".data, CommitType.perf), ("refactor".data, CommitType.refactor),
     ("docs".data, CommitType.docs), ("chore".data, CommitType.chore),
     ("style".data, CommitType.style), ("build".data, CommitType.build),
     ("ci".data, CommitType.ci), ("revert".data, CommitType.revert)]

/-- Characters that end the type token of a header: the scope opener, the
breaking marker and the colon. -/
def headerStop (c : Char) : Bool := c = '(' || c = '!' || c = ':'

/-- Parse what follows the type token of a header: the optional `(scope)`
(trimmed of surrounding whitespace), the optional breaking marker `!` and
the `: `-separated description. -/
def parseAfterType (t : CommitType) : List Char → Option (CommitType × Option (List Char) × Bool × List Char)
  | '(' :: r1 =>
    match r1.dropWhile fun c => !(c = ')') with
    | ')' :: '!' :: ':' :: ' ' :: d =>
      some (t, some (trimL (r1.takeWhile fun c => !(c = ')'))), true, d)
    | ')' :: ':' :: ' ' :: d =>
      some (t, some (trimL (r1.takeWhile fun c => !(c = ')'))), false, d)
    | _ => none
  | '!' :: ':' :: ' ' :: d => some (t, none, true, d)
  | ':' :: ' ' :: d => some (t, none, false, d)
  | _ => none

/-- Parse a header line against the grammar `type(scope)!: description`
(scope and `!` optional, `: ` separating the description).  Returns the
recognized type, the trimmed scope, the header breaking marker and the
description; `none` when the line does not conform. -/
def parseHeader (l : List Char) : Option (CommitType × Option (List Char) × Bool × List Char) :=
  match typeOfToken (l.takeWhile fun c => !(headerStop c)) with
  | none => none
  | some t => parseAfterType t (l.dropWhile fun c => !(headerStop c))

/-- The key of the breaking-change footer. -/
def breakingKey : List Char := "BREAKING CHANGE".data

/-- Parse one line as a `key: value` or `key #value` footer: the key must
be non-empty and a single word (no spaces) or the literal
`BREAKING CHANGE`. -/
def parseFooterLine (l : List Char) : Option (List Char × List Char) :=
  match splitFirstL (": ".data) l with
  | some (k, v) =>
    if k ≠ [] ∧ (k.all (fun c => !(c = ' ')) ∨ k = breakingKey) then some (k, v) else none
  | none =>
    match splitFirstL (" #".data) l with
    | some (k, v) =>
      if k ≠ [] ∧ k.all (fun c => !(c = ' ')) then some (k, v) else none
    | none => none

/-- The trailing footer section of the lines below the header: the maximal
suffix of lines that each parse as a footer. -/
def footerSection (ls : List (List Char)) : List (List Char) :=
  ((ls.reverse.takeWhile fun l => (parseFooterLine l).isSome)).reverse

/-- The parsed footers of the lines below the header. -/
def footersOf (ls : List (List Char)) : List (List Char × List Char) :=
  (footerSection ls).filterMap parseFooterLine

/-- Does the footer section carry a `BREAKING CHANGE` footer? -/
def hasBreakingFooter (ls : List (List Char)) : Bool :=
  (footersOf ls).any fun kv => kv.1 = breakingKey

/-- The body: the lines between the header and the footer section, with
surrounding blank lines dropped; `none` when empty. -/
def bodyOf (ls : List (List Char)) : Option (List Char) :=
  let core := ls.take (ls.length - (footerSection ls).length)
  let inner := ((core.dropWhile fun l => l = []).reverse.dropWhile fun l => l = []).reverse
  if inner = [] then none else some (joinWithChar '\n' inner)

/-- The header line of a message: its first line. -/
def firstLine (msg : List Char) : List Char :=
  (splitOnChar '\n' msg).headD []

/-- The Conventional Commit Parser: a total function from one raw commit
to exactly one `ParsedCommit`.  A conforming header yields the structured
record (breaking when the header carries `!` or a `BREAKING CHANGE` footer
is present); a non-conforming message degrades to `type=unknown` with the
full raw message retained as the description. -/
def parseCommit (rc : RawCommit) : ParsedCommit :=
  let lines := splitOnChar '\n' rc.message
  let rest := lines.drop 1
  match parseHeader (lines.headD []) with
  | some (t, sc, bang, d) =>
    ⟨t, sc, d, bodyOf rest, footersOf rest, bang || hasBreakingFooter rest, rc⟩
  | none => ⟨CommitType.unknown, none, rc.message, none, [], false, rc⟩

/-- Does a raw message conform to the conventional-commit grammar (its
header line parses)? -/
def conforms (msg : List Char) : Bool :=
  (parseHeader (firstLine msg)).isSome

/-- Re-render a header from its components: `type(scope)!: description`. -/
def mkHeader (t : CommitType) (sc : Option (List Char)) (breaking : Bool)
    (d : List Char) : List Char :=
  t.canonical
    ++ (match sc with | some s => '(' :: (s ++ [')']) | none => [])
    ++ (if breaking then ['!'] else [])
    ++ ':' :: ' ' :: d

/-- Re-render the header of a parsed commit (type, scope, breaking marker,
description). -/
def renderHeader (c : ParsedCommit) : List Char :=
  mkHeader c.type c.scope c.breaking c.description

/-! Version Bump Resolver.

Modelled from the spec, section 4.3: scan all commits; if any
`breaking=true` then major; else if any `type=feat` then minor; else if
any type in `{fix,perf}` then patch; else none. -/

/-- Resolve the bump implied by a set of parsed commits. -/
def resolveBump (cs : List ParsedCommit) : VersionBump :=
  if cs.any (fun c => c.breaking) then VersionBump.major
  else if cs.any (fun c => c.type = CommitType.feat) then VersionBump.minor
  else if cs.any (fun c => c.type = CommitType.fix ∨ c.type = CommitType.perf) then
    VersionBump.patch
  else VersionBump.none

/-- Apply a bump to the current version under semantic-versioning rules. -/
def applyBump (v : Semver) : VersionBump → Semver
  | VersionBump.major => ⟨v.major + 1, 0, 0⟩
  | VersionBump.minor => ⟨v.major, v.minor + 1, 0⟩
  | VersionBump.patch => ⟨v.major, v.minor, v.patch + 1⟩
  | VersionBump.none => v

/-- The resolver's contract: given the current version and the parsed
commits, return the bump and the resulting next version. -/
def resolveRelease (current : Semver) (cs : List ParsedCommit) : VersionBump × Semver :=
  let b := resolveBump cs
  (b, applyBump current b)

/-! Changelog Renderer.

Modelled from the spec, section 4.4: markdown grouped by type in a fixed
priority order (breaking changes first, then feat, fix, perf, refactor,
others), each group a heading followed by one bullet per commit (scope in
bold prefix if present, description, commit hash link suffix); commits of
`type=unknown` omitted; deterministic. -/

/-- Decimal digits of a natural number. -/
def natChars (n : Nat) : List Char := (Nat.toDigits 10 n)

/-- Render a semver triple as `major.minor.patch`. -/
def semverChars (v : Semver) : List Char :=
  natChars v.major ++ '.' :: natChars v.minor ++ '.' :: natChars v.patch

/-- One changelog bullet: `- **scope:** description (hash)`. -/
def bullet (c : ParsedCommit) : List Char :=
  "- ".data
    ++ (match c.scope with
        | some s => "**".data ++ s ++ ":** ".data
        | none => [])
    ++ c.description ++ " (".data ++ c.raw.hash ++ [')', '\n']

/-- One changelog group: empty when it has no commits, else a heading line
followed by one bullet per commit. -/
def renderGroup (heading : List Char) (cs : List ParsedCommit) : List Char :=
  if cs = [] then []
  else "### ".data ++ heading ++ '\n' :: (cs.map bullet).flatten

/-- Is the type one of the leading changelog groups (rendered before the
catch-all group)? -/
def leadingType (t : CommitType) : Bool :=
  t = CommitType.feat ∨ t = CommitType.fix ∨ t = CommitType.perf
    ∨ t = CommitType.refactor

/-- The Changelog Renderer: groups the parsed commits by type in the fixed
priority order, omitting `type=unknown`. -/
def renderChangelog (cs : List ParsedCommit) : List Char :=
  let known := cs.filter fun c => !(c.type = CommitType.unknown)
  let rest := known.filter fun c => !c.breaking
  renderGroup ("Breaking changes".data) (known.filter fun c => c.breaking)
    ++ renderGroup ("Features".data) (rest.filter fun c => c.type = CommitType.feat)
    ++ renderGroup ("Bug fixes".data) (rest.filter fun c => c.type = CommitType.fix)
    ++ renderGroup ("Performance".data) (rest.filter fun c => c.type = CommitType.perf)
    ++ renderGroup ("Refactoring".data) (rest.filter fun c => c.type = CommitType.refactor)
    ++ renderGroup ("Other changes".data) (rest.filter fun c => !(leadingType c.type))

/-! Release host and Orchestrator.

Modelled from the spec, sections 4.5, 4.6 and 6: a minimal remote-host
contract (get release by tag, create release) and the orchestrator state
flow `ReadCommits → ParseCommits → ResolveVersion → {NoReleaseNeeded |
RenderChangelog → Publish → Done}`, idempotent at the same `toRef`:
re-running after a successful publish detects the existing tag and
short-circuits to `NoReleaseNeeded` or a no-op update, never
double-publishing. -/

/-- Modelled from the spec: `RemoteRelease`: `{tagName, name, body,
isDraft, isPrerelease}`. -/
structure RemoteRelease : Type where
  tagName : List Char
  name : List Char
  body : List Char
  isDraft : Bool
  isPrerelease : Bool
deriving DecidableEq

/-- The remote host's state: its releases, keyed by tag name. -/
structure Host : Type where
  releases : List (List Char × RemoteRelease)
deriving DecidableEq

/-- Host contract: get release by tag (release resource or not-found). -/
def Host.getByTag (h : Host) (tag : List Char) : Option RemoteRelease :=
  lookupAssoc tag h.releases

/-- Host contract: overwrite the release stored under a tag. -/
def Host.update (h : Host) (r : RemoteRelease) : Host :=
  ⟨h.releases.map fun kv => if kv.1 = r.tagName then (kv.1, r) else kv⟩

/-- One orchestrator invocation's configuration: the raw commits between
`fromRef` (exclusive) and `toRef` (inclusive) as delivered by the Commit
Source Reader, the current version, the tag prefix and the release
flags. -/
structure RunConfig : Type where
  commits : List RawCommit
  currentVersion : Semver
  tagPref : List Char
  overwrite : Bool
  draft : Bool
  isPre : Bool
deriving DecidableEq

/-- A terminal orchestrator outcome. -/
inductive Outcome : Type
  | noReleaseNeeded
  | published (r : RemoteRelease)
  | updated (r : RemoteRelease)
deriving DecidableEq

/-- The Orchestrator: parse the commits, resolve the version, and either
stop at `NoReleaseNeeded`, detect an existing release for the next tag
(no-op unless overwriting, in which case the release body is refreshed),
or render the changelog and publish a new tag-backed release. -/
def orchestrate (cfg : RunConfig) (h : Host) : Outcome × Host :=
  let parsed := cfg.commits.map parseCommit
  let b := resolveBump parsed
  if b = VersionBump.none then (Outcome.noReleaseNeeded, h)
  else
    let next := applyBump cfg.currentVersion b
    let tag := cfg.tagPref ++ semverChars next
    let rel : RemoteRelease := ⟨tag, tag, renderChangelog parsed, cfg.draft, cfg.isPre⟩
    match h.getByTag tag with
    | some _ =>
      if cfg.overwrite then (Outcome.updated rel, h.update rel)
      else (Outcome.noReleaseNeeded, h)
    | none => (Outcome.published rel, ⟨h.releases ++ [(tag, rel)]⟩)

/-! Demonstration inputs used by the witness theorems. -/

/-- A demonstration orchestrator configuration: one `feat` commit on top of
version 1.2.3 with tag prefix `v`. -/
def demoCfg : RunConfig :=
  ⟨[⟨"abc".data, "feat: add x".data, 0⟩], ⟨1, 2, 3⟩, "v".data, false, false, false⟩

/-- The release the demonstration configuration publishes. -/
def demoRel : RemoteRelease :=
  ⟨"v1.3.0".data, "v1.3.0".data, "### Features\n- add x (abc)\n".data, false, false⟩

/-- The host state after the demonstration publish. -/
def demoHost2 : Host := ⟨[("v1.3.0".data, demoRel)]⟩

/-! Helper lemmas. -/

theorem takeWhile_append_of (p : Char → Bool) (l₁ l₂ : List Char)
    (h₁ : ∀ c ∈ l₁, p c = true) (h₂ : ∀ c, l₂.head? = some c → p c = false) :
    (l₁ ++ l₂).takeWhile p = l₁ := by
  induction l₁ with
  | nil =>
    cases l₂ with
    | nil => rfl
    | cons c t => simp [List.takeWhile_cons, h₂ c rfl]
  | cons a as ih =>
    simp [List.cons_append, List.takeWhile_cons, h₁ a (by simp),
      ih fun c hc => h₁ c (by simp [hc])]

theorem dropWhile_append_of (p : Char → Bool) (l₁ l₂ : List Char)
    (h₁ : ∀ c ∈ l₁, p c = true) (h₂ : ∀ c, l₂.head? = some c → p c = false) :
    (l₁ ++ l₂).dropWhile p = l₂ := by
  induction l₁ with
  | nil =>
    cases l₂ with
    | nil => rfl
    | cons c t => simp [List.dropWhile_cons, h₂ c rfl]
  | cons a as ih =>
    simp [List.cons_append, List.dropWhile_cons, h₁ a (by simp),
      ih fun c hc => h₁ c (by simp [hc])]

theorem head_cons_fail (p : Char → Bool) (a : Char) (l : List Char) (ha : p a = false) :
    ∀ c, (a :: l).head? = some c → p c = false := by
  intro c hc
  injection hc with h
  exact h ▸ ha

theorem canonical_all_notStop (t : CommitType) :
    ∀ c ∈ t.canonical, (!(headerStop c)) = true := by
  cases t <;> decide

theorem typeOfToken_canonical (t : CommitType) (ht : t ≠ CommitType.unknown) :
    typeOfToken t.canonical = some t := by
  cases t <;> first | decide | exact absurd rfl ht

theorem parseHeader_mkHeader (t : CommitType) (sc : Option (List Char)) (bang : Bool)
    (d : List Char) (ht : t ≠ CommitType.unknown)
    (hsc : ∀ s, sc = some s → (∀ c ∈ s, (!(c = ')')) = true) ∧ trimL s = s) :
    parseHeader (mkHeader t sc bang d) = some (t, sc, bang, d) := by
  have hp : ∀ (r : List Char) (c0 : Char), headerStop c0 = true →
      ((t.canonical ++ c0 :: r).takeWhile (fun c => !(headerStop c)) = t.canonical
      ∧ (t.canonical ++ c0 :: r).dropWhile (fun c => !(headerStop c)) = c0 :: r) := by
    intro r c0 hc0
    constructor
    · exact takeWhile_append_of _ t.canonical (c0 :: r) (canonical_all_notStop t)
        (head_cons_fail _ c0 r (by simp [hc0]))
    · exact dropWhile_append_of _ t.canonical (c0 :: r) (canonical_all_notStop t)
        (head_cons_fail _ c0 r (by simp [hc0]))
  cases sc with
  | none =>
    cases bang with
    | false =>
      have hmk : mkHeader t none false d = t.canonical ++ ':' :: ' ' :: d := by
        simp [mkHeader]
      rw [parseHeader, hmk, (hp (' ' :: d) ':' (by decide)).1, (hp (' ' :: d) ':' (by decide)).2,
        typeOfToken_canonical t ht]
      simp [parseAfterType]
    | true =>
      have hmk : mkHeader t none true d = t.canonical ++ '!' :: ':' :: ' ' :: d := by
        simp [mkHeader]
      rw [parseHeader, hmk, (hp (':' :: ' ' :: d) '!' (by decide)).1,
        (hp (':' :: ' ' :: d) '!' (by decide)).2, typeOfToken_canonical t ht]
      simp [parseAfterType]
  | some s =>
    obtain ⟨hs1, hs2⟩ := hsc s rfl
    cases bang with
    | false =>
      have hmk : mkHeader t (some s) false d
          = t.canonical ++ '(' :: (s ++ ')' :: ':' :: ' ' :: d) := by
        simp [mkHeader]
      rw [parseHeader, hmk, (hp (s ++ ')' :: ':' :: ' ' :: d) '(' (by decide)).1,
        (hp (s ++ ')' :: ':' :: ' ' :: d) '(' (by decide)).2, typeOfToken_canonical t ht]
      have e3 : (s ++ ')' :: ':' :: ' ' :: d).dropWhile (fun c => !(c = ')'))
          = ')' :: ':' :: ' ' :: d :=
        dropWhile_append_of _ s _ hs1 (head_cons_fail _ ')' _ (by decide))
      have e4 : (s ++ ')' :: ':' :: ' ' :: d).takeWhile (fun c => !(c = ')')) = s :=
        takeWhile_append_of _ s _ hs1 (head_cons_fail _ ')' _ (by decide))
      simp [parseAfterType, e3, e4, hs2]
    | true =>
      have hmk : mkHeader t (some s) true d
          = t.canonical ++ '(' :: (s ++ ')' :: '!' :: ':' :: ' ' :: d) := by
        simp [mkHeader]
      rw [parseHeader, hmk, (hp (s ++ ')' :: '!' :: ':' :: ' ' :: d) '(' (by decide)).1,
        (hp (s ++ ')' :: '!' :: ':' :: ' ' :: d) '(' (by decide)).2, typeOfToken_canonical t ht]
      have e3 : (s ++ ')' :: '!' :: ':' :: ' ' :: d).dropWhile (fun c => !(c = ')'))
          = ')' :: '!' :: ':' :: ' ' :: d :=
        dropWhile_append_of _ s _ hs1 (head_cons_fail _ ')' _ (by decide))
      have e4 : (s ++ ')' :: '!' :: ':' :: ' ' :: d).takeWhile (fun c => !(c = ')')) = s :=
        takeWhile_append_of _ s _ hs1 (head_cons_fail _ ')' _ (by decide))
      simp [parseAfterType, e3, e4, hs2]

theorem parseCommit_conforming (rc : RawCommit) (t : CommitType) (sc : Option (List Char))
    (bang : Bool) (d : List Char)
    (hh : parseHeader (firstLine rc.message) = some (t, sc, bang, d)) :
    parseCommit rc = ⟨t, sc, d, bodyOf ((splitOnChar '\n' rc.message).drop 1),
      footersOf ((splitOnChar '\n' rc.message).drop 1),
      bang || hasBreakingFooter ((splitOnChar '\n' rc.message).drop 1), rc⟩ := by
  unfold firstLine at hh
  simp only [parseCommit, hh]

theorem lookupAssoc_append_self {α : Type} (k : List Char) (v : α) (l : List (List Char × α))
    (hl : lookupAssoc k l = none) :
    lookupAssoc k (l ++ [(k, v)]) = some v := by
  induction l with
  | nil => simp [lookupAssoc]
  | cons kv tl ih =>
    obtain ⟨k2, v2⟩ := kv
    by_cases hk : k = k2
    · simp [lookupAssoc, hk] at hl
    · simp only [List.cons_append, lookupAssoc, if_neg hk] at hl ⊢
      exact ih hl

theorem mapUpdate_append_self {α : Type} (tag : List Char) (r : α) (l : List (List Char × α))
    (hl : lookupAssoc tag l = none) :
    (l ++ [(tag, r)]).map (fun kv => if kv.1 = tag then (kv.1, r) else kv) = l ++ [(tag, r)] := by
  induction l with
  | nil => simp
  | cons kv tl ih =>
    obtain ⟨k2, v2⟩ := kv
    by_cases hk : tag = k2
    · simp [lookupAssoc, hk] at hl
    · simp only [lookupAssoc, if_neg hk] at hl
      simp only [List.cons_append, List.map_cons, ih hl]
      have hk2 : ¬ (k2 = tag) := fun hx => hk hx.symm
      simp [hk2]

/-! Claim theorems. -/

/-- Claim C1, counterexample: the claim says the npm install shim installs
a pre-built binary, fetching a ready-made executable rather than compiling
the tool from source.  On the embedded `pre-install.js` this is false at a
concrete environment: the spawned install command invokes the
source-compiling `cargo install`, and the script's own log line announces
"Installing and compiling". -/
theorem installShim_not_prebuilt : ¬ fetchesPrebuiltBinary ⟨none, "1.0.0", true⟩ := by
  unfold fetchesPrebuiltBinary
  decide

/-- Claim C1, amended: the npm install shim installs the tool by shelling
out to `cargo install donder-release --vers <version>`, which compiles the
crate from source with the cargo toolchain; the script's own log line
announces "Installing and compiling". -/
theorem installShim_compiles_from_source (e : ShimEnv) :
    Effect.exec ("cargo install donder-release --vers " ++ versionOf e) ∈ preInstall e
    ∧ Effect.log ("Installing and compiling donder-release " ++ versionOf e ++ "...")
      ∈ preInstall e := by
  cases hc : e.cargoDirExists <;> simp [preInstall, installCmd, installLog, hc]

/-- Claim C2: for every set of parsed commits given to the Version Bump
Resolver, if at least one commit has `breaking=true` the resolved bump is
major, regardless of the types of the other commits. -/
theorem breaking_forces_major (cs : List ParsedCommit) (hb : ∃ c ∈ cs, c.breaking = true) :
    resolveBump cs = VersionBump.major := by
  obtain ⟨c, hc, hcb⟩ := hb
  have ha : cs.any (fun c => c.breaking) = true := List.any_eq_true.mpr ⟨c, hc, hcb⟩
  simp [resolveBump, ha]

/-- Claim C2, witness: a breaking `fix` commit next to a plain `feat`
commit resolves to a major bump. -/
theorem breaking_forces_major_wit :
    resolveBump [parseCommit ⟨"a1".data, "fix!: break z".data, 0⟩,
      parseCommit ⟨"a2".data, "feat: add x".data, 0⟩] = VersionBump.major :=
  breaking_forces_major _ ⟨parseCommit ⟨"a1".data, "fix!: break z".data, 0⟩,
    List.mem_cons_self _ _, by decide⟩

/-- Claim C3: the Conventional Commit Parser is total — it is a function
returning exactly one `ParsedCommit` for every input, and every
non-conforming message yields `type=unknown` with the full raw message
retained as the description. -/
theorem parser_total_unknown (rc : RawCommit) (h : conforms rc.message = false) :
    (∃! pc : ParsedCommit, parseCommit rc = pc)
    ∧ (parseCommit rc).type = CommitType.unknown
    ∧ (parseCommit rc).description = rc.message := by
  refine ⟨⟨parseCommit rc, rfl, fun y hy => hy.symm⟩, ?_⟩
  unfold conforms firstLine at h
  cases hph : parseHeader ((splitOnChar '\n' rc.message).headD []) with
  | some v => rw [hph] at h; simp at h
  | none =>
    rw [List.headD_eq_head?] at hph
    simp [parseCommit, hph]

/-- Claim C3, witness: a free-form message parses to `type=unknown` with
the message kept as the description. -/
theorem parser_total_unknown_wit :
    (parseCommit ⟨"b1".data, "update stuff and things".data, 0⟩).type = CommitType.unknown
    ∧ (parseCommit ⟨"b1".data, "update stuff and things".data, 0⟩).description
      = "update stuff and things".data :=
  (parser_total_unknown ⟨"b1".data, "update stuff and things".data, 0⟩ (by decide)).2

/-- Claim C4: the Orchestrator is idempotent at the same `toRef` — re-run
with the same configuration after a successful publish, it detects the
existing tag and short-circuits to `NoReleaseNeeded` (or, when overwriting
is requested, performs a no-op update that leaves the host unchanged); it
never publishes a second release. -/
theorem orchestrate_idempotent (cfg : RunConfig) (h : Host) (r : RemoteRelease) (h2 : Host)
    (hpub : orchestrate cfg h = (Outcome.published r, h2)) :
    orchestrate cfg h2
      = if cfg.overwrite then (Outcome.updated r, h2) else (Outcome.noReleaseNeeded, h2) := by
  unfold orchestrate at hpub ⊢
  by_cases hb : resolveBump (cfg.commits.map parseCommit) = VersionBump.none
  · simp [hb] at hpub
  · simp only [if_neg hb] at hpub ⊢
    cases hget : Host.getByTag h
        (cfg.tagPref ++ semverChars (applyBump cfg.currentVersion
          (resolveBump (cfg.commits.map parseCommit)))) with
    | some r0 =>
      rw [hget] at hpub
      by_cases ho : cfg.overwrite
      · simp [ho] at hpub
      · simp [ho] at hpub
    | none =>
      rw [hget] at hpub
      injection hpub with h1 hh2
      injection h1 with hr
      unfold Host.getByTag at hget
      rw [← hh2, ← hr]
      rw [show Host.getByTag
          ⟨h.releases ++ [((cfg.tagPref ++ semverChars (applyBump cfg.currentVersion
            (resolveBump (cfg.commits.map parseCommit)))),
            ⟨(cfg.tagPref ++ semverChars (applyBump cfg.currentVersion
              (resolveBump (cfg.commits.map parseCommit)))),
             (cfg.tagPref ++ semverChars (applyBump cfg.currentVersion
              (resolveBump (cfg.commits.map parseCommit)))),
             renderChangelog (cfg.commits.map parseCommit), cfg.draft, cfg.isPre⟩)]⟩
          (cfg.tagPref ++ semverChars (applyBump cfg.currentVersion
            (resolveBump (cfg.commits.map parseCommit))))
        = some ⟨(cfg.tagPref ++ semverChars (applyBump cfg.currentVersion
              (resolveBump (cfg.commits.map parseCommit)))),
             (cfg.tagPref ++ semverChars (applyBump cfg.currentVersion
              (resolveBump (cfg.commits.map parseCommit)))),
             renderChangelog (cfg.commits.map parseCommit), cfg.draft, cfg.isPre⟩
        from lookupAssoc_append_self _ _ _ hget]
      by_cases ho : cfg.overwrite
      · simp only [ho, if_true]
        unfold Host.update
        rw [mapUpdate_append_self _ _ _ hget]
      · simp [ho]

/-- Claim C4, witness: after the demonstration publish, re-running the
orchestrator against the resulting host yields `NoReleaseNeeded` and
leaves the host unchanged. -/
theorem orchestrate_idempotent_wit :
    orchestrate demoCfg demoHost2 = (Outcome.noReleaseNeeded, demoHost2) := by
  have hx := orchestrate_idempotent demoCfg ⟨[]⟩ demoRel demoHost2 (by decide)
  simpa [demoCfg] using hx

/-- Claim C5, counterexample: the claim says every grammar-conforming
message parses and re-renders its header byte-for-byte.  The message
`feat: x` + blank line + `BREAKING CHANGE: y` conforms (its header is the
rendering of `feat`, no scope, no marker, description `x`), yet the
`BREAKING CHANGE` footer forces `breaking=true`, so the re-rendered
header is `feat!: x`, not the original `feat: x`. -/
theorem header_round_trip_cex :
    conforms ("feat: x\n\nBREAKING CHANGE: y".data) = true
    ∧ firstLine ("feat: x\n\nBREAKING CHANGE: y".data)
      = mkHeader CommitType.feat none false ("x".data)
    ∧ renderHeader (parseCommit ⟨"abc".data, "feat: x\n\nBREAKING CHANGE: y".data, 0⟩)
      ≠ firstLine ("feat: x\n\nBREAKING CHANGE: y".data) :=
  ⟨by decide, by decide, by decide⟩

/-- Claim C5, amended: for every commit message whose header line matches
the conventional grammar `type(scope)!: description` in canonical form (a
recognized non-unknown type in its canonical spelling, scope free of `)`
and already trimmed) and which carries no `BREAKING CHANGE` footer,
parsing and re-rendering the header reproduces the original header line
byte-for-byte. -/
theorem header_round_trip (rc : RawCommit) (t : CommitType) (sc : Option (List Char))
    (bang : Bool) (d : List Char)
    (hline : firstLine rc.message = mkHeader t sc bang d)
    (ht : t ≠ CommitType.unknown)
    (hsc : ∀ s, sc = some s → (∀ c ∈ s, (!(c = ')')) = true) ∧ trimL s = s)
    (hfoot : hasBreakingFooter ((splitOnChar '\n' rc.message).drop 1) = false) :
    renderHeader (parseCommit rc) = firstLine rc.message := by
  have hh : parseHeader (firstLine rc.message) = some (t, sc, bang, d) := by
    rw [hline]; exact parseHeader_mkHeader t sc bang d ht hsc
  have hfoot2 : hasBreakingFooter (splitOnChar '\n' rc.message).tail = false := by
    rw [← List.drop_one]; exact hfoot
  rw [parseCommit_conforming rc t sc bang d hh]
  unfold renderHeader
  simp [hfoot2, hline]

/-- Claim C5, witness: `feat(ui)!: add x` parses and re-renders to itself. -/
theorem header_round_trip_wit :
    renderHeader (parseCommit ⟨"abc".data, "feat(ui)!: add x".data, 0⟩)
      = firstLine ("feat(ui)!: add x".data) :=
  header_round_trip ⟨"abc".data, "feat(ui)!: add x".data, 0⟩ CommitType.feat
    (some ("ui".data)) true ("add x".data) (by decide) (by decide)
    (by intro s hs; injection hs with h2; rw [← h2]; exact ⟨by decide, by decide⟩) (by decide)

/-- Claim C6: on the commit messages `feat: add x` and `fix: correct y`
with current version 1.2.3, the resolver returns bump=minor and next
version 1.3.0. -/
theorem resolver_feat_fix_example :
    resolveRelease ⟨1, 2, 3⟩
      ([⟨"h1".data, "feat: add x".data, 0⟩, ⟨"h2".data, "fix: correct y".data, 0⟩].map parseCommit)
      = (VersionBump.minor, ⟨1, 3, 0⟩) := by decide

/-- Claim C7: the Changelog Renderer is deterministic — identical parsed
commit sequences render to byte-identical markdown. -/
theorem renderChangelog_deterministic (cs₁ cs₂ : List ParsedCommit) (hcs : cs₁ = cs₂) :
    renderChangelog cs₁ = renderChangelog cs₂ := by
  rw [hcs]

/-- Claim C7, witness: rendering a concrete commit sequence twice yields
the same markdown. -/
theorem renderChangelog_deterministic_wit :
    renderChangelog [parseCommit ⟨"abc".data, "feat: add x".data, 0⟩]
      = renderChangelog [parseCommit ⟨"abc".data, "feat: add x".data, 0⟩] :=
  renderChangelog_deterministic _ _ rfl

/-- Claim C8: the uninstall shim spawns `cargo uninstall donder-release`
if and only if `~/.cargo/bin/donder-release` exists; when it is absent the
script spawns no command at all and only prints the skip message. -/
theorem uninstall_guard (b : Bool) :
    (Effect.exec ("cargo uninstall donder-release") ∈ uninstall b ↔ b = true)
    ∧ (b = false → execCmds (uninstall b) = []
        ∧ uninstall b = [Effect.log ("donder-release not found skipping!")]) := by
  cases b <;> simp [uninstall, execCmds]

/-- Claim C8, witness: with the binary absent, the shim spawns nothing and
only prints the skip message. -/
theorem uninstall_guard_wit :
    execCmds (uninstall false) = []
    ∧ uninstall false = [Effect.log ("donder-release not found skipping!")] :=
  (uninstall_guard false).2 rfl

/-- Claim C9: the version string the install shim passes to
`cargo install` equals `npm_config_version` when that variable is set and
non-empty, and otherwise the sibling `package.json` version. -/
theorem version_selection (e : ShimEnv) :
    Effect.exec ("cargo install donder-release --vers " ++ versionOf e) ∈ preInstall e
    ∧ (∀ v, e.npmConfigVersion = some v → v ≠ "" → versionOf e = v)
    ∧ (e.npmConfigVersion = none ∨ e.npmConfigVersion = some "" →
        versionOf e = e.packageJsonVersion) := by
  refine ⟨?_, ?_, ?_⟩
  · cases hc : e.cargoDirExists <;> simp [preInstall, installCmd, installLog, hc]
  · intro v hv hne
    simp [versionOf, hv, hne]
  · rintro (hv | hv) <;> simp [versionOf, hv]

/-- Claim C9, witness: a set, non-empty `npm_config_version` wins over the
`package.json` version. -/
theorem version_selection_wit : versionOf ⟨some ("9.9.9"), "1.0.0", true⟩ = "9.9.9" :=
  (version_selection ⟨some ("9.9.9"), "1.0.0", true⟩).2.1 "9.9.9" rfl (by decide)

/-- Claim C10: the install shim spawns `cargo install` unconditionally —
it is issued even when `~/.cargo` is absent, because the toolchain check
only gates the rustup bootstrap, never the install command. -/
theorem cargo_install_unconditional (e : ShimEnv) :
    Effect.exec ("cargo install donder-release --vers " ++ versionOf e) ∈ preInstall e
    ∧ (e.cargoDirExists = false →
        preInstall e = [Effect.log ("Installing deps [cargo]."), Effect.exec curlCmd,
          Effect.log ("Installing and compiling donder-release " ++ versionOf e ++ "..."),
          Effect.exec ("cargo install donder-release --vers " ++ versionOf e)]) := by
  constructor
  · cases hc : e.cargoDirExists <;> simp [preInstall, installCmd, installLog, hc]
  · intro hc
    simp [preInstall, installCmd, installLog, hc]

/-- Claim C10, witness: with `~/.cargo` absent, the effect list is the
bootstrap followed by the unconditional install. -/
theorem cargo_install_unconditional_wit :
    preInstall ⟨none, "1.0.0", false⟩
      = [Effect.log ("Installing deps [cargo]."), Effect.exec curlCmd,
         Effect.log ("Installing and compiling donder-release 1.0.0..."),
         Effect.exec ("cargo install donder-release --vers 1.0.0")] := by
  have hx := (cargo_install_unconditional ⟨none, "1.0.0", false⟩).2 rfl
  simpa using hx
